import Mathlib

/-!
Verification of the agentself capability kernel.

This file embeds the security-relevant parts of the `agentself` repository
(`core.py`, `capabilities/path_guard.py`, `capabilities/file_system.py`,
`capabilities/command_line.py`, `harness/repl.py`, `harness/hub.py`) as
executable Lean definitions and proves, or refutes, the specification claims
about them.

Modelling conventions:
* A canonical absolute path is a `List String` of its components
  (`/a/b` is `["a", "b"]`); `Path.parents` membership becomes the proper-prefix
  relation on component lists.
* `fnmatch.fnmatch` from the Python standard library is embedded in full
  for the forms a pattern can carry: literal characters, `*`, `?`, and
  `[seq]` / `[!seq]` character classes (with ranges, a literal first-member
  `]`, and the unterminated-`[`-is-literal rule).  On POSIX,
  `os.path.normcase` is the identity, so matching is direct.
* Filesystem and subprocess side effects are abstracted as explicit inputs:
  the functions that decide about them (the guards) are embedded exactly.
-/

namespace Agentself

/-- A canonical absolute path, as its list of components. -/
abbrev CPath := List String

/-- `path_guard.is_path_allowed`: `candidate == allowed or allowed in
candidate.parents` for each allowed root; `Path.parents` of `/a/b/c` is
`/a/b`, `/a`, `/`, i.e. exactly the proper component-prefixes. -/
def is_path_allowed (candidate : CPath) (allowed_paths : List CPath) : Bool :=
  allowed_paths.any
    (fun allowed =>
      candidate == allowed ||
        (allowed.isPrefixOf candidate && decide (allowed.length < candidate.length)))

/-- The terminator lookahead of `fnmatch.translate` for a `[`: after an
optional `!` and an optional first-member `]`, is there a closing `]`?
The argument is the pattern text following the `[`. -/
def classTerminated (l : List Char) : Bool :=
  let l1 := match l with
    | '!' :: t => t
    | _ => l
  let l2 := match l1 with
    | ']' :: t => t
    | _ => l1
  l2.contains ']'

/-- A lexed pattern token: a literal character, `?`, `*`, or a character
class (polarity plus match items, each a closed code-point range; a
literal member `c` is the range `c-c`). -/
inductive GlobTok where
  | lit (c : Char)
  | qmark
  | star
  | cls (neg : Bool) (items : List (Char × Char))
deriving Repr, DecidableEq

/-- Lexer mode: scanning pattern text, or inside a `[...]` class.  The
class stages mirror `fnmatch.translate`'s scan: `clsFirst` sits right
after `[` (a `!` may still flip the polarity when `bang`, and the next
member is literal even if `]`), `clsScan` looks for the terminator or the
next member, `clsPend` holds a member that may yet become a range start,
`clsDash` has seen `member-` and awaits the range end (a terminating `]`
makes both literal members). -/
inductive LexMode where
  | norm
  | clsFirst (bang : Bool) (neg : Bool) (items : List (Char × Char))
  | clsScan (neg : Bool) (items : List (Char × Char))
  | clsPend (neg : Bool) (items : List (Char × Char)) (pending : Char)
  | clsDash (neg : Bool) (items : List (Char × Char)) (pending : Char)
deriving Repr, DecidableEq

/-- Lex a pattern the way `fnmatch.translate` reads it: `*`, `?`, a `[`
whose class scan finds a terminator opens a class, any other character —
including an unterminated `[` — is a literal; one input character is
consumed per step. -/
def globLexGo : List Char → LexMode → List GlobTok
  | [], _ => []
  | c :: ps, .norm =>
    if c = '*' then .star :: globLexGo ps .norm
    else if c = '?' then .qmark :: globLexGo ps .norm
    else if c = '[' && classTerminated ps then globLexGo ps (.clsFirst true false [])
    else .lit c :: globLexGo ps .norm
  | c :: ps, .clsFirst bang neg items =>
    if bang && c = '!' then globLexGo ps (.clsFirst false true items)
    else globLexGo ps (.clsPend neg items c)
  | c :: ps, .clsScan neg items =>
    if c = ']' then .cls neg items :: globLexGo ps .norm
    else globLexGo ps (.clsPend neg items c)
  | c :: ps, .clsPend neg items p =>
    if c = ']' then .cls neg (items ++ [(p, p)]) :: globLexGo ps .norm
    else if c = '-' then globLexGo ps (.clsDash neg items p)
    else globLexGo ps (.clsPend neg (items ++ [(p, p)]) c)
  | c :: ps, .clsDash neg items p =>
    if c = ']' then .cls neg (items ++ [(p, p), ('-', '-')]) :: globLexGo ps .norm
    else globLexGo ps (.clsScan neg (items ++ [(p, c)]))

/-- One class item `(lo, hi)` matches `c` iff `lo ≤ c ≤ hi`; an inverted
range matches no character (Python's translate elides such ranges). -/
def clsItemMatch (c : Char) (it : Char × Char) : Bool :=
  decide (it.1 ≤ c) && decide (c ≤ it.2)

/-- Match a lexed pattern: `*` matches some (possibly empty) suffix split,
`?` and a class consume exactly one character, a literal matches itself. -/
def tokMatch : List GlobTok → List Char → Bool
  | [], s => s.isEmpty
  | .star :: ts, s => s.tails.any (fun t => tokMatch ts t)
  | .qmark :: ts, s =>
    match s with
    | [] => false
    | _ :: s' => tokMatch ts s'
  | .lit c :: ts, s =>
    match s with
    | [] => false
    | c' :: s' => (c = c') && tokMatch ts s'
  | .cls neg items :: ts, s =>
    match s with
    | [] => false
    | c' :: s' => (items.any (clsItemMatch c') != neg) && tokMatch ts s'

/-- `fnmatch.fnmatch` (pattern first, then the string being matched). -/
def fnmatchMatch (p s : List Char) : Bool :=
  tokMatch (globLexGo p .norm) s

/-- `str.replace("**", "*")`: left-to-right, non-overlapping replacement of
each adjacent star pair by a single star. -/
def replaceDoubleStar : List Char → List Char
  | [] => []
  | [c] => [c]
  | c :: c2 :: rest =>
    if c = '*' && c2 = '*' then '*' :: replaceDoubleStar rest
    else c :: replaceDoubleStar (c2 :: rest)

/-! ### CapabilityContract (core.py) -/

/-- `core.CapabilityContract`: declarative effect record. -/
structure CapabilityContract where
  reads : List String := []
  writes : List String := []
  executes : List String := []
  network : List String := []
  spawns : Bool := false
deriving Repr, DecidableEq

namespace CapabilityContract

/-- `CapabilityContract._matches_pattern`: replace `**` by `*`, then
`fnmatch.fnmatch(resource, fnmatch_pattern)`. -/
def matchesPattern (pattern resource : String) : Bool :=
  fnmatchMatch (replaceDoubleStar pattern.toList) resource.toList

/-- `getattr(self, resource_type, [])` restricted to the four list fields. -/
def patternsOf (c : CapabilityContract) (resource_type : String) : List String :=
  if resource_type == "reads" then c.reads
  else if resource_type == "writes" then c.writes
  else if resource_type == "executes" then c.executes
  else if resource_type == "network" then c.network
  else []

/-- `CapabilityContract.covers`. -/
def covers (c : CapabilityContract) (resource_type resource : String) : Bool :=
  (c.patternsOf resource_type).any (fun pattern => matchesPattern pattern resource)

/-- `CapabilityContract.merge`: the embedding keeps list concatenation where
the source takes `list(set(...))`; only membership matters downstream. -/
def merge (c other : CapabilityContract) : CapabilityContract where
  reads := c.reads ++ other.reads
  writes := c.writes ++ other.writes
  executes := c.executes ++ other.executes
  network := c.network ++ other.network
  spawns := c.spawns || other.spawns

/-- `CapabilityContract.is_subset_of`: early-return loops over the four
resource lists, checking each of this contract's pattern strings with
`other.covers`. -/
def is_subset_of (c other : CapabilityContract) : Bool :=
  if c.spawns && !other.spawns then false
  else
    c.reads.all (fun r => other.covers "reads" r) &&
    c.writes.all (fun r => other.covers "writes" r) &&
    c.executes.all (fun r => other.covers "executes" r) &&
    c.network.all (fun r => other.covers "network" r)

end CapabilityContract

/-! ### Path resolution (`pathlib`)

`Path(p).resolve()` makes a path absolute against the process working
directory and eliminates `.` / `..` components; symlinks are not modelled
(the embedding describes symlink-free trees, on which physical and lexical
resolution agree).  `Path.expanduser` replaces a *leading* `~` component by
the user's home directory; `resolve` alone treats `~` as an ordinary
component. -/

/-- An input path: absolute flag plus raw components (no empty components;
`~` may appear as a component). -/
structure RawPath where
  absolute : Bool
  comps : List String
deriving Repr, DecidableEq

/-- The resolution environment: process working directory and user home. -/
structure PathEnv where
  cwd : CPath
  home : CPath
deriving Repr, DecidableEq

/-- Eliminate `.`, `..` and empty components the way `resolve()` does on a
symlink-free tree (at the root, `..` stays at the root). -/
def normComps : List String → CPath → CPath
  | [], acc => acc.reverse
  | c :: rest, acc =>
    if c = "." || c = "" then normComps rest acc
    else if c = ".." then normComps rest acc.tail
    else normComps rest (c :: acc)

/-- `Path(p).resolve()`: no user expansion — a leading `~` is kept as a
plain component and resolved relative to the working directory. -/
def pyResolve (env : PathEnv) (p : RawPath) : CPath :=
  normComps (if p.absolute then p.comps else env.cwd ++ p.comps) []

/-- `Path(p).expanduser()`: replace a leading `~` component of a relative
path by the home directory. -/
def pyExpanduser (env : PathEnv) (p : RawPath) : RawPath :=
  match p with
  | ⟨false, "~" :: rest⟩ => ⟨true, env.home ++ rest⟩
  | other => other

/-- Modelled from the spec: the spec's canonical form of an input path —
"Input paths are expanded (user-home prefix) then resolved into an
absolute, symlink-free form before any check" (§4.1).  The file capability
itself resolves without expanding; this definition exists to compare the
spec's canonicalization with the code's. -/
def canonicalSpec (env : PathEnv) (p : RawPath) : CPath :=
  pyResolve env (pyExpanduser env p)

/-! ### `FileSystemCapability` (capabilities/file_system.py)

Roots are stored post-`normalize_paths`, i.e. already canonical; the
embedding therefore works with `CPath` roots directly. -/

structure FileSystemCapability where
  allowed_paths : List CPath
  read_only : Bool
deriving Repr, DecidableEq

namespace FileSystemCapability

/-- `FileSystemCapability._is_path_allowed`: empty root set means no
restriction. -/
def isPathAllowedCap (c : FileSystemCapability) (resolved : CPath) : Bool :=
  if c.allowed_paths.isEmpty then true
  else is_path_allowed resolved c.allowed_paths

/-- `FileSystemCapability._check_path`: resolve (`Path(path).resolve()`,
without user expansion) and refuse with a permission error when outside the
allowed roots.  `read`, `write`, `mkdir` and `exists` all call this before
touching the filesystem. -/
def checkPath (c : FileSystemCapability) (env : PathEnv) (p : RawPath) :
    Except String CPath :=
  let resolved := pyResolve env p
  if c.isPathAllowedCap resolved then .ok resolved
  else .error "Access denied: path is outside allowed paths"

end FileSystemCapability

/-! ### `CommandLineCapability` (capabilities/command_line.py) -/

structure CommandLineCapability where
  allowed_commands : Option (List String)
  allowed_paths : List CPath
  allowed_cwd : List CPath
  timeout : Nat
  deny_shell_operators : Bool
deriving Repr, DecidableEq

/-- `CommandLineCapability.__init__` (lines 54–85): paths pre-normalized;
an absent or `None` `allowed_cwd`/`allowed_paths` argument is the empty
list (as `normalize_paths(None)` returns `[]`).  When `allowed_paths` is
non-empty, the cwd allowlist is filtered to entries inside it and falls
back to `allowed_paths` itself when empty. -/
def CommandLineCapability.make (allowed_commands : Option (List String))
    (allowed_cwd : List CPath) (allowed_paths : List CPath)
    (timeout : Nat) (deny_shell_operators : Bool) : CommandLineCapability :=
  let cwd_paths :=
    if !allowed_paths.isEmpty then
      if allowed_cwd.isEmpty then allowed_paths
      else
        let filtered := allowed_cwd.filter (fun p => is_path_allowed p allowed_paths)
        if filtered.isEmpty then allowed_paths else filtered
    else allowed_cwd
  { allowed_commands := allowed_commands
    allowed_paths := allowed_paths
    allowed_cwd := cwd_paths
    timeout := timeout
    deny_shell_operators := deny_shell_operators }

inductive ShMode | norm | squote | dquote
deriving Repr, DecidableEq

def shlexAux : List Char → ShMode → Option (List Char) → List String →
    Option (List String)
  | [], .norm, cur, acc =>
    some (match cur with
          | none => acc
          | some t => acc ++ [String.mk t])
  | [], .squote, _, _ => none
  | [], .dquote, _, _ => none
  | ch :: rest, .norm, cur, acc =>
    if ch = ' ' || ch = '\t' || ch = '\r' || ch = '\n' then
      match cur with
      | none => shlexAux rest .norm none acc
      | some t => shlexAux rest .norm none (acc ++ [String.mk t])
    else if ch = '\'' then shlexAux rest .squote (some (cur.getD [])) acc
    else if ch = '"' then shlexAux rest .dquote (some (cur.getD [])) acc
    else if ch = '\\' then
      match rest with
      | [] => none
      | c2 :: rest' => shlexAux rest' .norm (some (cur.getD [] ++ [c2])) acc
    else shlexAux rest .norm (some (cur.getD [] ++ [ch])) acc
  | ch :: rest, .squote, cur, acc =>
    if ch = '\'' then shlexAux rest .norm cur acc
    else shlexAux rest .squote (some (cur.getD [] ++ [ch])) acc
  | ch :: rest, .dquote, cur, acc =>
    if ch = '"' then shlexAux rest .norm cur acc
    else if ch = '\\' then
      match rest with
      | [] => none
      | c2 :: rest' =>
        if c2 = '"' || c2 = '\\' then
          shlexAux rest' .dquote (some (cur.getD [] ++ [c2])) acc
        else
          shlexAux rest' .dquote (some (cur.getD [] ++ ['\\', c2])) acc
    else shlexAux rest .dquote (some (cur.getD [] ++ [ch])) acc

/-- `shlex.split(s)`; `none` models a raised `ValueError`. -/
def shlexSplit (s : String) : Option (List String) :=
  shlexAux s.toList .norm none []

/-- `pref` is a prefix of `s` (`str.startswith`). -/
def strStartsWith (s pref : String) : Bool :=
  pref.toList.isPrefixOf s.toList

/-- Python's `sub in s` substring test. -/
def strContains (s sub : String) : Bool :=
  s.toList.tails.any (fun t => sub.toList.isPrefixOf t)

/-! ### Path-token extraction (capabilities/path_guard.py) -/

/-- `path_guard.is_pathlike_arg`. -/
def is_pathlike_arg (token : String) : Bool :=
  if token == "." || token == ".." || token == "~" then true
  else if strStartsWith token "/" || strStartsWith token "./" ||
      strStartsWith token "../" || strStartsWith token "~" then true
  else strContains token "/"

/-- `path_guard._find_path_start`, returning the token's suffix from the
found index (`arg[idx:]`) rather than the index itself. -/
def findPathSuffix : List Char → Option (List Char)
  | [] => none
  | c :: rest =>
    if c = '/' || c = '~' then some (c :: rest)
    else if c = '.' then
      match rest with
      | '/' :: _ => some (c :: rest)
      | '.' :: '/' :: _ => some (c :: rest)
      | _ => findPathSuffix rest
    else findPathSuffix rest

/-- `arg.split("=", 1)` when `"=" in arg`: the text before and after the
first `=`. -/
def splitOnceEq : List Char → Option (List Char × List Char)
  | [] => none
  | '=' :: rest => some ([], rest)
  | c :: rest => (splitOnceEq rest).map (fun p => (c :: p.1, p.2))

/-- The tail of one iteration of the `extract_path_args` loop, after the
`key=value` branch fell through. -/
def extractOneRest (arg : String) : Option String :=
  if strStartsWith arg "--" then none
  else if strStartsWith arg "-" then (findPathSuffix arg.toList).map String.mk
  else if is_pathlike_arg arg then some arg
  else none

/-- One iteration of the `extract_path_args` loop: the path argument this
token contributes, if any.  Note the source's `key=value` branch only
`continue`s when the value is path-like; otherwise it falls through to the
flag handling. -/
def extractOne (arg : String) : Option String :=
  if arg == "" then none
  else
    match splitOnceEq arg.toList with
    | some (_, value) =>
      if is_pathlike_arg (String.mk value) then some (String.mk value)
      else extractOneRest arg
    | none => extractOneRest arg

/-- `path_guard.extract_path_args`. -/
def extract_path_args (args : List String) : List String :=
  args.filterMap extractOne

/-- Split a character list at `/` boundaries. -/
def splitSlash : List Char → List Char → List String
  | [], cur => [String.mk cur.reverse]
  | '/' :: rest, cur => String.mk cur.reverse :: splitSlash rest []
  | c :: rest, cur => splitSlash rest (c :: cur)

/-- Parse a path-argument string into a `RawPath` (empty pieces from
repeated slashes are dropped; `.`/`..`/`~` stay as components). -/
def parseRawPath (s : String) : RawPath :=
  ⟨strStartsWith s "/", (splitSlash s.toList []).filter (fun c => c ≠ "")⟩

/-- `path_guard.resolve_path_arg`: expanduser, then resolve (absolute
directly, otherwise against the effective cwd). -/
def resolve_path_arg (env : PathEnv) (value : String) (cwd : CPath) : CPath :=
  let expanded := pyExpanduser env (parseRawPath value)
  if expanded.absolute then normComps expanded.comps []
  else normComps (cwd ++ expanded.comps) []

/-! ### `CommandLineCapability.run` pipeline -/

/-- `CommandResult` (command_line.py). -/
structure CommandResult where
  exit_code : Int
  stdout : String
  stderr : String
deriving Repr, DecidableEq

/-- The permission errors `run` can raise before spawning a subprocess. -/
inductive RunError
  | commandNotAllowed
  | shellOperators
  | cwdNotAllowed
  | unableToParse
  | pathArgNotAllowed (arg : String)
deriving Repr, DecidableEq

namespace CommandLineCapability

/-- `CommandLineCapability._is_command_allowed`: `None` allowlist means no
check; otherwise shell-tokenize (a `ValueError` or empty split fails) and
compare the first token against each allowed command by equality or by the
`startswith(f"{allowed} ")` prefix. -/
def isCommandAllowed (c : CommandLineCapability) (command : String) : Bool :=
  match c.allowed_commands with
  | none => true
  | some allowed =>
    match shlexSplit command with
    | none => false
    | some [] => false
    | some (executable :: _) =>
      allowed.any (fun a => executable == a || strStartsWith executable (a ++ " "))

/-- `CommandLineCapability._is_cwd_allowed`: empty cwd allowlist means no
check; the default cwd is the process working directory; the containment
test is the same component-wise check as `is_path_allowed`. -/
def isCwdAllowed (c : CommandLineCapability) (env : PathEnv) (cwd : Option CPath) :
    Bool :=
  if c.allowed_cwd.isEmpty then true
  else is_path_allowed (cwd.getD env.cwd) c.allowed_cwd

/-- `CommandLineCapability._check_path_args`. -/
def checkPathArgs (c : CommandLineCapability) (env : PathEnv) (command : String)
    (cwd : CPath) : Except RunError Unit :=
  if c.allowed_paths.isEmpty then .ok ()
  else
    match shlexSplit command with
    | none => .error .unableToParse
    | some parts =>
      match (extract_path_args parts).find?
          (fun a => !is_path_allowed (resolve_path_arg env a cwd) c.allowed_paths) with
      | some bad => .error (.pathArgNotAllowed bad)
      | none => .ok ()

/-- The tokens rejected by the `deny_shell_operators` hardening check. -/
def blockedOperators : List String :=
  ["&&", "||", ";", "|", "`", "$(", ">", "<", "\n"]

/-- `CommandLineCapability.run`: the four guard steps in source order.  The
spawned subprocess (including the timeout and spawn-failure fallbacks that
the source folds into a `CommandResult` with exit code −1) is abstracted as
the explicit `spawn` input, returned untouched once every guard passes — a
guard failure is therefore independent of anything the subprocess would
do. -/
def run (c : CommandLineCapability) (env : PathEnv) (command : String)
    (cwd : Option CPath) (spawn : CommandResult) : Except RunError CommandResult :=
  if !c.isCommandAllowed command then .error .commandNotAllowed
  else if c.deny_shell_operators &&
      blockedOperators.any (fun t => strContains command t) then
    .error .shellOperators
  else if !c.isCwdAllowed env cwd then .error .cwdNotAllowed
  else
    let resolved_cwd := (cwd.getD env.cwd)
    match c.checkPathArgs env command resolved_cwd with
    | .error e => .error e
    | .ok _ => .ok spawn

end CommandLineCapability

/-! ### Session worker (harness/repl.py, `REPL_BOOTSTRAP`)

The bootstrap runs a Python interpreter; the embedding keeps the control
flow of `_relay` and `_execute` and abstracts the interpreter itself:
what `eval`/`exec` did to the submitted code is an explicit input. -/

/-- A JSON-serializable value, as far as the protocol needs one. -/
inductive RVal
  | null
  | bool (b : Bool)
  | num (n : Int)
  | str (s : String)
deriving Repr, DecidableEq

/-- Python truthiness of `response.get("success")` (`None` when the key is
absent). -/
def truthyR : Option RVal → Bool
  | none => false
  | some .null => false
  | some (.bool b) => b
  | some (.num n) => n != 0
  | some (.str s) => s != ""

/-- The single `relay_request` line `_relay` writes to the uncaptured
stdout. -/
structure RelayRequest where
  rtype : String
  id : String
  capability : String
  method : String
  kwargs : List (String × RVal)
deriving Repr, DecidableEq

/-- The parsed `relay_response` line read back from the uncaptured stdin;
every field is `.get`-style optional. -/
structure RelayResponseMsg where
  rtype : Option String := none
  id : Option String := none
  success : Option RVal := none
  result : Option RVal := none
  error : Option RVal := none
deriving Repr, DecidableEq

/-- The `RuntimeError`s `_relay` can raise. -/
inductive RelayError
  | closedConnection
  | unexpectedType (t : Option String)
  | idMismatch (expected : String)
  | callFailed (e : Option RVal)
deriving Repr, DecidableEq

/-- `_relay(capability, method, kwargs)` from the worker bootstrap: bump the
per-worker counter, emit exactly one `relay_request` line with the fresh id
`relay_<n>`, block for exactly one line of the uncaptured stdin (`none` =
EOF), then validate type and id before unwrapping success/error. The
returned triple is (the emitted request, the new counter value, the call's
outcome as seen by the calling code). -/
def workerRelay (relay_id : Nat) (capability method : String)
    (kwargs : List (String × RVal)) (stdinLine : Option RelayResponseMsg) :
    RelayRequest × Nat × Except RelayError (Option RVal) :=
  let new_id := relay_id + 1
  let request_id := "relay_" ++ toString new_id
  let request : RelayRequest := ⟨"relay_request", request_id, capability, method, kwargs⟩
  let outcome : Except RelayError (Option RVal) :=
    match stdinLine with
    | none => .error .closedConnection
    | some resp =>
      if resp.rtype != some "relay_response" then .error (.unexpectedType resp.rtype)
      else if resp.id != some request_id then .error (.idMismatch request_id)
      else if truthyR resp.success then .ok resp.result
      else .error (.callFailed resp.error)
  (request, new_id, outcome)

/-- What the interpreter did with the submitted code inside `_execute`:
`eval` of a single expression producing a value, `exec` of statements, or a
raised exception. -/
inductive EvalOutcome
  | exprValue (v : RVal)
  | stmtOk
  | raised (etype emsg : String)
deriving Repr, DecidableEq

/-- The `execute_result` record `_execute` builds. -/
structure PyExecResult where
  success : Bool
  stdout : String
  stderr : String
  return_value : Option RVal
  error_type : Option String
  error_message : Option String
deriving Repr, DecidableEq

/-- `_execute(code)` from the worker bootstrap: on a successful
`eval`/`exec` the code string is appended to `_history` (the append is the
last statement of the `try` block); a raised exception skips the append,
flags failure and adds the traceback to the captured stderr.  Returns the
result record and the new history. -/
def workerExecute (history : List String) (code : String) (outcome : EvalOutcome)
    (captured_out captured_err traceback : String) : PyExecResult × List String :=
  match outcome with
  | .exprValue v =>
    ({ success := true, stdout := captured_out, stderr := captured_err,
       return_value := some v, error_type := none, error_message := none },
     history ++ [code])
  | .stmtOk =>
    ({ success := true, stdout := captured_out, stderr := captured_err,
       return_value := none, error_type := none, error_message := none },
     history ++ [code])
  | .raised etype emsg =>
    ({ success := false, stdout := captured_out, stderr := captured_err ++ traceback,
       return_value := none, error_type := some etype, error_message := some emsg },
     history)

/-- The `history_length` field reported by `_get_state`: `len(_history)`. -/
def workerHistoryLength (history : List String) : Nat :=
  history.length

/-! ### Relay hub (harness/hub.py)

`MCPHub` guards its registry with a *non-reentrant* `asyncio.Lock`.  The
embedding makes the lock explicit: an operation that must acquire the lock
while it is already held never proceeds (`blocked`).  The spawn/handshake
with the backend child (stdio connect, `initialize`, `list_tools`, 30 s
bound) is abstracted as an explicit `Except` input: a timeout or connection
failure is its `error` case. -/

structure ToolSpec where
  name : String
  description : String
deriving Repr, DecidableEq

structure BackendServer where
  name : String
  command : String
  tools : List ToolSpec
deriving Repr, DecidableEq

structure MCPHub where
  backends : List (String × BackendServer)
  locked : Bool
deriving Repr, DecidableEq

/-- Result of a hub operation: `blocked` marks an `await` on the already
held non-reentrant hub lock, which never returns. -/
inductive InstallResult
  | blocked
  | raised (hub : MCPHub) (msg : String)
  | ok (hub : MCPHub) (tools : List ToolSpec)
deriving Repr, DecidableEq

namespace MCPHub

/-- `MCPHub.uninstall` when invoked on its own: acquires the hub lock, pops
the entry and best-effort-closes the backend session. -/
def uninstall (hub : MCPHub) (name : String) : Except Unit (MCPHub × Bool) :=
  if hub.locked then .error ()
  else if hub.backends.any (fun b => b.1 == name) then
    .ok ({ backends := hub.backends.filter (fun b => b.1 != name), locked := false }, true)
  else .ok ({ hub with locked := false }, false)

/-- `MCPHub.install(name, command)`: enter `async with self._lock`; when an
entry already exists under `name` the source does `await
self.uninstall(name)`, and `uninstall` itself re-acquires the same
non-reentrant lock — held by this very call — so the await never completes
(`blocked`).  Otherwise parse the command, run the handshake, and record
the backend; exceptions release the lock and propagate. -/
def install (hub : MCPHub) (name command : String)
    (handshake : Except String (List ToolSpec)) : InstallResult :=
  if hub.locked then .blocked
  else
    -- the lock is now held by this call
    if hub.backends.any (fun b => b.1 == name) then
      .blocked
    else
      match shlexSplit command with
      | none => .raised { hub with locked := false } "Invalid command"
      | some [] => .raised { hub with locked := false } "Invalid command"
      | some (_ :: _) =>
        match handshake with
        | .error e =>
          .raised { hub with locked := false } ("Failed to connect to MCP server: " ++ e)
        | .ok toolList =>
          .ok { backends := hub.backends ++ [(name, ⟨name, command, toolList⟩)],
                locked := false }
            toolList

end MCPHub

/-! ## Supporting lemmas -/

/-- A path in the allowed list is allowed (the equality disjunct). -/
theorem is_path_allowed_of_mem {p : CPath} {l : List CPath} (hp : p ∈ l) :
    is_path_allowed p l = true := by
  simp only [is_path_allowed, List.any_eq_true]
  exact ⟨p, hp, by simp⟩

/-- Unfolding of `is_path_allowed` into the component-wise containment
relation: equality with a root, or a root being a proper prefix of the
candidate's component list. -/
theorem is_path_allowed_iff {c : CPath} {l : List CPath} :
    is_path_allowed c l = true ↔
      ∃ r ∈ l, r = c ∨ (r <+: c ∧ r.length < c.length) := by
  simp only [is_path_allowed, List.any_eq_true, Bool.or_eq_true, Bool.and_eq_true,
    beq_iff_eq, List.isPrefixOf_iff_prefix, decide_eq_true_eq]
  constructor
  · rintro ⟨r, hr, h | h⟩
    · exact ⟨r, hr, Or.inl h.symm⟩
    · exact ⟨r, hr, Or.inr h⟩
  · rintro ⟨r, hr, h | h⟩
    · exact ⟨r, hr, Or.inl h.symm⟩
    · exact ⟨r, hr, Or.inr h⟩

/-- Validation of the class semantics against `fnmatch`: a bracket class
matches exactly the one character it names, not its literal spelling —
`file:/a[0]/*` matches `file:/a0/x` but not the text `file:/a[0]/**` — so
a contract whose root embeds `[0]` is not even judged a subset of an
identical contract. -/
theorem matchesPattern_bracket_class :
    CapabilityContract.matchesPattern "file:/a[0]/*" "file:/a0/x" = true ∧
      CapabilityContract.matchesPattern "file:/a[0]/*" "file:/a[0]/**" = false ∧
      CapabilityContract.is_subset_of ⟨["file:/a[0]/**"], [], [], [], false⟩
        ⟨["file:/a[0]/**"], [], [], [], false⟩ = false := by
  refine ⟨?_, ?_, ?_⟩
  · rfl
  · rfl
  · rfl

/-- Characterization of `is_subset_of`: spawns implication plus literal
coverage of every pattern string (shared by several results below). -/
theorem subset_characterization (c o : CapabilityContract) :
    c.is_subset_of o = true ↔
      ((c.spawns = true → o.spawns = true) ∧
       (∀ r ∈ c.reads, o.covers "reads" r = true) ∧
       (∀ r ∈ c.writes, o.covers "writes" r = true) ∧
       (∀ r ∈ c.executes, o.covers "executes" r = true) ∧
       (∀ r ∈ c.network, o.covers "network" r = true)) := by
  unfold CapabilityContract.is_subset_of
  cases hcs : c.spawns <;> cases hos : o.spawns <;>
    simp [List.all_eq_true, and_assoc]

/-- C3: contradicted by the code.  `_matches_pattern` rewrites `**` to `*`
and hands the pattern to `fnmatch`, whose `*` matches across `/`; hence the
single-`*` pattern `file:/root/*` *does* cover the doubly nested resource
`file:/root/a/b`, and `*` and `**` cannot be distinguished at all — against
both the claim and the function's own docstring ("`*` matches any single
path component"). -/
theorem covers_single_star_crosses_components :
    CapabilityContract.covers ⟨["file:/root/*"], [], [], [], false⟩
        "reads" "file:/root/a/b" = true ∧
      CapabilityContract.matchesPattern "file:/root/*" "file:/root/a/b" =
        CapabilityContract.matchesPattern "file:/root/**" "file:/root/a/b" := by
  constructor
  · decide
  · decide

/-- C8: the path-token extraction of `path_guard.extract_path_args`
recovers `/a/b` from `--file=/a/b` (the text after `=`), `/a/b` from the
short-option token `-f/a/b` (the remainder from the first path-looking
index), the plain path-like tokens `./a/b` and `~/a`, and nothing from
`--help`. -/
theorem extract_path_args_spec_examples :
    extract_path_args ["--file=/a/b", "-f/a/b", "./a/b", "~/a", "--help"] =
      ["/a/b", "/a/b", "./a/b", "~/a"] := by
  decide

/-- C9: the worker's `_execute` appends the submitted code string to the
execution history exactly when execution succeeds; on failure the history —
and hence the `history_length` that `_get_state` reports — is unchanged. -/
theorem execute_appends_history_iff_success :
    ∀ (history : List String) (code : String) (outcome : EvalOutcome)
      (captured_out captured_err traceback : String),
      (workerExecute history code outcome captured_out captured_err traceback).2 =
        (if (workerExecute history code outcome captured_out captured_err
            traceback).1.success then history ++ [code] else history) ∧
      workerHistoryLength
          (workerExecute history code outcome captured_out captured_err traceback).2 =
        (if (workerExecute history code outcome captured_out captured_err
            traceback).1.success then history.length + 1 else history.length) := by
  intro history code outcome captured_out captured_err traceback
  cases outcome <;> simp [workerExecute, workerHistoryLength]

/-- C7: contradicted by the code.  `MCPHub.install` enters the hub's
non-reentrant `asyncio.Lock` and, when `name` is already registered, awaits
`self.uninstall(name)` — which must acquire that same, already-held lock:
the call never completes.  Reinstalling `"x"` therefore blocks forever,
while the same install under the fresh name `"y"` runs the handshake and
records the backend as the claim describes. -/
theorem hub_reinstall_deadlocks :
    MCPHub.install ⟨[("x", ⟨"x", "old-cmd", []⟩)], false⟩ "x" "new-cmd"
        (.ok [⟨"add", "adds"⟩]) = .blocked ∧
      MCPHub.install ⟨[("x", ⟨"x", "old-cmd", []⟩)], false⟩ "y" "new-cmd"
        (.ok [⟨"add", "adds"⟩]) =
        .ok ⟨[("x", ⟨"x", "old-cmd", []⟩), ("y", ⟨"y", "new-cmd", [⟨"add", "adds"⟩]⟩)],
              false⟩
          [⟨"add", "adds"⟩] := by
  constructor
  · decide
  · decide

/-- C10: constructing a `CommandLineCapability` with non-empty
`allowed_paths` always yields a non-empty cwd allowlist whose entries all
lie within `allowed_paths`; when `allowed_cwd` is omitted (empty after
normalization) or every supplied cwd falls outside `allowed_paths`, the cwd
allowlist is exactly `allowed_paths`. -/
theorem make_cwd_allowlist_within_paths :
    ∀ (cmds : Option (List String)) (cwd paths : List CPath) (t : Nat) (d : Bool),
      paths ≠ [] →
      (CommandLineCapability.make cmds cwd paths t d).allowed_cwd ≠ [] ∧
      (∀ p ∈ (CommandLineCapability.make cmds cwd paths t d).allowed_cwd,
        is_path_allowed p paths = true) ∧
      (cwd = [] → (CommandLineCapability.make cmds cwd paths t d).allowed_cwd = paths) ∧
      ((∀ p ∈ cwd, is_path_allowed p paths = false) →
        (CommandLineCapability.make cmds cwd paths t d).allowed_cwd = paths) := by
  intro cmds cwd paths t d hpaths
  have hp : paths.isEmpty = false := by
    simpa [List.isEmpty_iff] using hpaths
  simp only [CommandLineCapability.make, hp, Bool.not_false, if_true]
  by_cases hcwd : cwd.isEmpty
  · simp only [hcwd, if_true]
    refine ⟨hpaths, fun p hp' => is_path_allowed_of_mem hp', by simp, by simp⟩
  · simp only [hcwd, if_false]
    by_cases hf : (cwd.filter (fun p => is_path_allowed p paths)).isEmpty
    · simp only [hf, if_true]
      refine ⟨hpaths, fun p hp' => is_path_allowed_of_mem hp', by simp, by simp⟩
    · simp only [hf, if_false]
      refine ⟨by simpa [List.isEmpty_iff] using hf,
        fun p hp' => (List.mem_filter.mp hp').2, ?_, ?_⟩
      · intro hnil
        exact absurd (by simp [hnil]) hcwd
      · intro hall
        exfalso
        apply hf
        simp only [List.isEmpty_iff, List.filter_eq_nil_iff]
        intro p hp'
        simp [hall p hp']

/-- C10 witness: a concrete construction where one of two supplied cwds
survives the filter. -/
theorem make_cwd_allowlist_within_paths_witness :
    (CommandLineCapability.make none [["a"], ["z"]] [["a"], ["b"]] 30 false).allowed_cwd
        ≠ [] ∧
      (∀ p ∈ (CommandLineCapability.make none [["a"], ["z"]] [["a"], ["b"]] 30
          false).allowed_cwd, is_path_allowed p [["a"], ["b"]] = true) ∧
      ([["a"], ["z"]] = ([] : List CPath) →
        (CommandLineCapability.make none [["a"], ["z"]] [["a"], ["b"]] 30
          false).allowed_cwd = [["a"], ["b"]]) ∧
      ((∀ p ∈ [["a"], ["z"]], is_path_allowed p [["a"], ["b"]] = false) →
        (CommandLineCapability.make none [["a"], ["z"]] [["a"], ["b"]] 30
          false).allowed_cwd = [["a"], ["b"]]) :=
  make_cwd_allowlist_within_paths none [["a"], ["z"]] [["a"], ["b"]] 30 false
    (by decide)

/-- C6: the worker's `_relay` emits exactly one `relay_request` line (the
first component of the result) carrying the fresh id `relay_<n>` drawn from
the per-worker counter it just incremented, consumes exactly one response
line, raises a protocol error on EOF, on a wrong response type, or on a
wrong id, and otherwise the call yields the response's `result` when
`success` is true and raises an error carrying the response's `error` when
it is not. -/
theorem relay_protocol_behavior :
    ∀ (relay_id : Nat) (capability method : String) (kwargs : List (String × RVal))
      (line : Option RelayResponseMsg),
      (workerRelay relay_id capability method kwargs line).1.rtype = "relay_request" ∧
      (workerRelay relay_id capability method kwargs line).2.1 = relay_id + 1 ∧
      (workerRelay relay_id capability method kwargs line).1.id =
        "relay_" ++ toString (relay_id + 1) ∧
      (line = none →
        (workerRelay relay_id capability method kwargs line).2.2 =
          .error .closedConnection) ∧
      (∀ resp, line = some resp →
        (resp.rtype ≠ some "relay_response" →
          (workerRelay relay_id capability method kwargs line).2.2 =
            .error (.unexpectedType resp.rtype)) ∧
        (resp.rtype = some "relay_response" →
          resp.id ≠ some ("relay_" ++ toString (relay_id + 1)) →
          (workerRelay relay_id capability method kwargs line).2.2 =
            .error (.idMismatch ("relay_" ++ toString (relay_id + 1)))) ∧
        (resp.rtype = some "relay_response" →
          resp.id = some ("relay_" ++ toString (relay_id + 1)) →
          truthyR resp.success = true →
          (workerRelay relay_id capability method kwargs line).2.2 = .ok resp.result) ∧
        (resp.rtype = some "relay_response" →
          resp.id = some ("relay_" ++ toString (relay_id + 1)) →
          truthyR resp.success = false →
          (workerRelay relay_id capability method kwargs line).2.2 =
            .error (.callFailed resp.error))) := by
  intro relay_id capability method kwargs line
  refine ⟨rfl, rfl, rfl, ?_, ?_⟩
  · rintro rfl
    rfl
  · rintro resp rfl
    refine ⟨?_, ?_, ?_, ?_⟩
    · intro ht
      simp [workerRelay, ht]
    · intro ht hid
      simp [workerRelay, ht, hid]
    · intro ht hid hs
      simp [workerRelay, ht, hid, hs]
    · intro ht hid hs
      simp [workerRelay, ht, hid, hs]

/-- C6 witness: a concrete successful relay round-trip returning the
response's result. -/
theorem relay_protocol_behavior_witness :
    (workerRelay 0 "math" "add" [("a", RVal.num 3)]
        (some ⟨some "relay_response", some "relay_1", some (RVal.bool true),
          some (RVal.num 7), none⟩)).2.2 = .ok (some (RVal.num 7)) :=
  ((relay_protocol_behavior 0 "math" "add" [("a", RVal.num 3)]
        (some ⟨some "relay_response", some "relay_1", some (RVal.bool true),
          some (RVal.num 7), none⟩)).2.2.2.2
      ⟨some "relay_response", some "relay_1", some (RVal.bool true),
        some (RVal.num 7), none⟩ rfl).2.2.1 (by decide) (by decide) (by decide)

/-- `_check_path_args` can only raise parse or path-argument errors. -/
theorem checkPathArgs_ne_commandNotAllowed :
    ∀ (c : CommandLineCapability) (env : PathEnv) (command : String) (cwd : CPath),
      c.checkPathArgs env command cwd ≠ .error .commandNotAllowed := by
  intro c env command cwd
  by_cases hp : c.allowed_paths.isEmpty
  · simp [CommandLineCapability.checkPathArgs, hp]
  · simp only [CommandLineCapability.checkPathArgs, hp, Bool.false_eq_true, if_false]
    cases hs : shlexSplit command with
    | none => simp
    | some parts =>
      cases hf : (extract_path_args parts).find?
          (fun a => !is_path_allowed (resolve_path_arg env a cwd) c.allowed_paths) with
      | none => simp [hf]
      | some bad => simp [hf]

/-- A command that passes the allowlist check can never produce the
command-not-allowed error (the later guards raise different errors). -/
theorem run_ne_commandNotAllowed_of_allowed
    {c : CommandLineCapability} {env : PathEnv} {command : String}
    {cwd : Option CPath} {spawn : CommandResult}
    (h : c.isCommandAllowed command = true) :
    c.run env command cwd spawn ≠ .error .commandNotAllowed := by
  simp only [CommandLineCapability.run, h, Bool.not_true, Bool.false_eq_true, if_false]
  split_ifs with h1 h2
  · simp
  · simp
  · cases hcp : c.checkPathArgs env command (cwd.getD env.cwd) with
    | error e =>
      have he : e ≠ .commandNotAllowed := fun h' =>
        checkPathArgs_ne_commandNotAllowed c env command (cwd.getD env.cwd) (h' ▸ hcp)
      simp [hcp, he]
    | ok u => simp [hcp]

/-- The allowlist check, unfolded to the claim's terms (for a present
allowlist `l`). -/
theorem isCommandAllowed_iff {c : CommandLineCapability} {command : String}
    {l : List String} (hl : c.allowed_commands = some l) :
    c.isCommandAllowed command = true ↔
      ∃ t0 ts, shlexSplit command = some (t0 :: ts) ∧
        l.any (fun a => t0 == a || strStartsWith t0 (a ++ " ")) = true := by
  simp only [CommandLineCapability.isCommandAllowed, hl]
  cases hs : shlexSplit command with
  | none => simp
  | some parts =>
    cases parts with
    | nil => simp
    | cons t0 ts => simp

/-- C5: contradicted by the code.  A `CommandLineCapability` whose
allowlist is the *empty list* rejects every command — `_is_command_allowed`
only skips the check when the allowlist is `None`, and `any()` over an
empty allowlist is false — so `run("echo hi")` fails with the
command-not-allowed permission error even though the claim says an empty
allowlist lets any command name pass. -/
theorem run_empty_allowlist_rejects :
    (CommandLineCapability.make (some []) [] [] 30 false).run ⟨["w"], ["h"]⟩
        "echo hi" none ⟨0, "", ""⟩ = .error .commandNotAllowed := by
  rfl

/-- C5 (amended): `run` tokenizes the command with shell splitting and
fails with the command-not-allowed permission error — independently of
anything the subprocess would produce, i.e. before any spawn — exactly when
the allowlist is present (`some l`) and either tokenization fails, the line
is empty, or the first token neither equals an allowed command nor starts
with an allowed command followed by a space; a `None` allowlist disables
the check entirely, while an empty-list allowlist rejects every command. -/
theorem run_command_name_check :
    ∀ (c : CommandLineCapability) (env : PathEnv) (command : String)
      (cwd : Option CPath) (spawn : CommandResult),
      (c.allowed_commands = none →
        c.run env command cwd spawn ≠ .error .commandNotAllowed) ∧
      (∀ l, c.allowed_commands = some l →
        (c.run env command cwd spawn = .error .commandNotAllowed ↔
          ¬ ∃ t0 ts, shlexSplit command = some (t0 :: ts) ∧
            l.any (fun a => t0 == a || strStartsWith t0 (a ++ " ")) = true)) ∧
      (c.run env command cwd spawn = .error .commandNotAllowed →
        ∀ spawn2 : CommandResult,
          c.run env command cwd spawn2 = .error .commandNotAllowed) := by
  intro c env command cwd spawn
  have hofAllowed : ∀ (sp : CommandResult), c.isCommandAllowed command = false →
      c.run env command cwd sp = .error .commandNotAllowed := by
    intro sp hA
    simp [CommandLineCapability.run, hA]
  refine ⟨?_, ?_, ?_⟩
  · intro hnone
    have hA : c.isCommandAllowed command = true := by
      simp [CommandLineCapability.isCommandAllowed, hnone]
    exact run_ne_commandNotAllowed_of_allowed hA
  · intro l hl
    constructor
    · intro herr hex
      have hA : c.isCommandAllowed command = true := (isCommandAllowed_iff hl).mpr hex
      exact run_ne_commandNotAllowed_of_allowed hA herr
    · intro hnex
      have hA : c.isCommandAllowed command = false := by
        cases hA : c.isCommandAllowed command with
        | false => rfl
        | true => exact absurd ((isCommandAllowed_iff hl).mp hA) hnex
      exact hofAllowed spawn hA
  · intro herr spawn2
    have hA : c.isCommandAllowed command = false := by
      cases hA : c.isCommandAllowed command with
      | false => rfl
      | true => exact absurd herr (run_ne_commandNotAllowed_of_allowed hA)
    exact hofAllowed spawn2 hA

/-- C5 witness: with allowlist `["git"]`, the command `rm -rf /` is refused
with the command-not-allowed error (via the amended characterization). -/
theorem run_command_name_check_witness :
    (CommandLineCapability.make (some ["git"]) [] [] 30 false).run ⟨["w"], ["h"]⟩
        "rm -rf /" none ⟨0, "", ""⟩ = .error .commandNotAllowed :=
  ((run_command_name_check (CommandLineCapability.make (some ["git"]) [] [] 30 false)
        ⟨["w"], ["h"]⟩ "rm -rf /" none ⟨0, "", ""⟩).2.1 ["git"] rfl).mpr
    (by
      rintro ⟨t0, ts, hsplit, hany⟩
      have hs : shlexSplit "rm -rf /" = some ["rm", "-rf", "/"] := rfl
      rw [hs] at hsplit
      have ht : "rm" = t0 ∧ ["-rf", "/"] = ts := by simpa using hsplit
      obtain ⟨h1, -⟩ := ht
      subst h1
      exact absurd hany (by decide))

/-- C2: contradicted by the code.  `_check_path` resolves with
`Path(path).resolve()` only — it never applies `expanduser` — so the
relative path `~/x`, checked from the working directory `/tmp/r` against
the single root `/tmp/r`, is accepted as the literal `/tmp/r/~/x`, while
its canonical (user-expanded, resolved) form `/root/x` lies outside every
allowed root. -/
theorem checkPath_accepts_unexpanded_tilde :
    FileSystemCapability.checkPath ⟨[["tmp", "r"]], false⟩ ⟨["tmp", "r"], ["root"]⟩
        ⟨false, ["~", "x"]⟩ = .ok ["tmp", "r", "~", "x"] ∧
      is_path_allowed (canonicalSpec ⟨["tmp", "r"], ["root"]⟩ ⟨false, ["~", "x"]⟩)
        [["tmp", "r"]] = false := by
  constructor
  · rfl
  · rfl

/-- C2 (amended): for a file capability with a non-empty root set, every
path accepted by `_check_path` (hence by read/write/mkdir/exists, which all
call it before touching the filesystem) has as its `Path(p).resolve()` form
— absolute, symlink-resolved, but *not* user-expanded — either an allowed
root itself or a path with an allowed root as a proper ancestor, decided on
parsed path components, never by string prefix. -/
theorem checkPath_sound :
    ∀ (c : FileSystemCapability) (env : PathEnv) (p : RawPath) (out : CPath),
      c.allowed_paths ≠ [] →
      c.checkPath env p = .ok out →
      out = pyResolve env p ∧
        ∃ r ∈ c.allowed_paths, r = out ∨ (r <+: out ∧ r.length < out.length) := by
  intro c env p out hne hok
  have hE : c.allowed_paths.isEmpty = false := by simpa [List.isEmpty_iff] using hne
  by_cases hall : is_path_allowed (pyResolve env p) c.allowed_paths
  · simp only [FileSystemCapability.checkPath, FileSystemCapability.isPathAllowedCap,
      hE, Bool.false_eq_true, if_false, hall, if_true, Except.ok.injEq] at hok
    subst hok
    exact ⟨rfl, is_path_allowed_iff.mp hall⟩
  · simp only [FileSystemCapability.checkPath, FileSystemCapability.isPathAllowedCap,
      hE, Bool.false_eq_true, if_false, hall, Bool.not_eq_true, if_neg,
      reduceCtorEq] at hok

/-- C2 witness: `/a/b` accepted under root `/a`, with the root a proper
ancestor of the resolved path. -/
theorem checkPath_sound_witness :
    (["a", "b"] : CPath) = pyResolve ⟨[], []⟩ ⟨true, ["a", "b"]⟩ ∧
      ∃ r ∈ [(["a"] : CPath)], r = ["a", "b"] ∨
        (r <+: ["a", "b"] ∧ r.length < (["a", "b"] : CPath).length) :=
  checkPath_sound ⟨[["a"]], false⟩ ⟨[], []⟩ ⟨true, ["a", "b"]⟩ ["a", "b"]
    (by decide) rfl

/-- C4: the claimed language-inclusion reading is contradicted by the code.
`is_subset_of` checks each of this contract's pattern *strings* against the
other contract's patterns, so `reads=["file:a*"]` is judged a subset of
`reads=["file:a?"]` (the `?` matches the literal `*`), although the string
`file:abc` is matched by `file:a*` and by no pattern of the other
contract. -/
theorem is_subset_of_not_language_inclusion :
    CapabilityContract.is_subset_of ⟨["file:a*"], [], [], [], false⟩
        ⟨["file:a?"], [], [], [], false⟩ = true ∧
      CapabilityContract.matchesPattern "file:a*" "file:abc" = true ∧
      CapabilityContract.covers ⟨["file:a?"], [], [], [], false⟩ "reads"
        "file:abc" = false := by
  refine ⟨?_, ?_, ?_⟩
  · rfl
  · rfl
  · rfl

/-- C4 (amended): `is_subset_of(other)` returns true iff `self.spawns`
implies `other.spawns` and every pattern string of `self.reads`, `writes`,
`executes` and `network` — taken as a literal resource string — is covered
by the corresponding pattern set of `other`.  The check is pattern-aware on
the parent side only; it does not decide language inclusion between the two
pattern sets. -/
theorem is_subset_of_iff :
    ∀ c o : CapabilityContract,
      c.is_subset_of o = true ↔
        ((c.spawns = true → o.spawns = true) ∧
         (∀ r ∈ c.reads, o.covers "reads" r = true) ∧
         (∀ r ∈ c.writes, o.covers "writes" r = true) ∧
         (∀ r ∈ c.executes, o.covers "executes" r = true) ∧
         (∀ r ∈ c.network, o.covers "network" r = true)) := by
  intro c o
  exact subset_characterization c o

/-- C4 witness: the repository's own subset example, decided through the
amended characterization. -/
theorem is_subset_of_iff_witness :
    CapabilityContract.is_subset_of
        ⟨["file:src/main.py"], ["file:src/app.py"], [], [], false⟩
        ⟨["file:**"], ["file:src/**"], [], [], true⟩ = true :=
  (is_subset_of_iff ⟨["file:src/main.py"], ["file:src/app.py"], [], [], false⟩
      ⟨["file:**"], ["file:src/**"], [], [], true⟩).mpr (by decide)

end Agentself
